import Mathlib

/-!
Shallow embedding of the delivery-time logistics service (`main.py`).

Conventions of the embedding:
* A `datetime` is an `Int`: minutes since an epoch whose day 0 is a Monday.
  `dtDate` is the calendar-day number (floor), `dtTime` the minute-of-day,
  `dtWeekday` the Python `weekday()` (0 = Monday).  Calendar dates themselves
  are day numbers (`Int`); the `strftime("%Y-%m-%d")` keys used by the source
  are in bijection with day numbers, so dictionary keys on date strings are
  modelled as keys on day numbers.
* Python `//` and `%` are floor division and floor modulus, so they are
  modelled by `Int.fdiv` and `Int.fmod` (identical to `/` = `Int.ediv` and
  `%` = `Int.emod` whenever the divisor is positive, which is the case at
  every call site: 1440, 7, and a positive `frequency`).
* `datetime.time(h, 0)` is modelled as the minute count `h * 60`.
* Python exceptions are modelled with `Except PyErr`: an `Except.error`
  value is an exception propagating out of the modelled function, and a
  `try/except` block is a `match` on the error constructor.  A Python
  `ZeroDivisionError` (possible in `get_next_delivery_dates` when a
  schedule has `frequency = 0`) is modelled by `PyErr.zeroDivision`.
-/

/-- Minutes since the epoch; epoch day 0 is a Monday. -/
abbrev DateTime := Int

/-- Calendar-day number of an instant (`datetime.date()`). -/
def dtDate (t : DateTime) : Int := t.fdiv 1440

/-- Minute-of-day of an instant (`datetime.time()`, measured in minutes). -/
def dtTime (t : DateTime) : Int := t.fmod 1440

/-- Python `weekday()` of a calendar-day number (0 = Monday). -/
def dayWeekday (d : Int) : Int := d.fmod 7

/-- Python `weekday()` of an instant. -/
def dtWeekday (t : DateTime) : Int := dayWeekday (dtDate t)

/-- `t + timedelta(minutes = m)`. -/
def dtAddMinutes (t : DateTime) (m : Int) : DateTime := t + m

/-- `t + timedelta(days = d)`. -/
def dtAddDays (t : DateTime) (d : Int) : DateTime := t + 1440 * d

/-- `datetime.combine(date, time)`. -/
def dtCombine (d : Int) (tm : Int) : DateTime := 1440 * d + tm

/-- `(a - b).days` on datetimes (`timedelta.days` floors). -/
def diffDays (a b : DateTime) : Int := (a - b).fdiv 1440

/-- The `Store` class: regular hours keyed by weekday number (the source keys
by weekday name via `calendar.day_name`, which is in bijection with the
weekday number), special schedules and closed dates keyed by day number. -/
structure Store where
  code : String
  working_hours : Int → Option (Int × Int)
  unloading_time : Int
  special_schedules : Int → Option (Int × Int)
  closed_dates : Int → Bool

/-- `Store.is_open`: the date string is not in `closed_dates`. -/
def Store.is_open (st : Store) (date : Int) : Bool :=
  ! st.closed_dates date

/-- `Store.get_working_hours`. -/
def Store.get_working_hours (st : Store) (date : Int) : Option (Int × Int) :=
  if ! st.is_open date then none
  else
    match st.special_schedules date with
    | some h => some h
    | none => st.working_hours (dayWeekday date)

/-- The `DeliverySchedule` class.  `day_of_week_num` is the index of the
`day_of_week` name in `calendar.day_name`; the redundant name field is
dropped.  `start_date` is a datetime (as in the source, where it is built
with `datetime(...)`). -/
structure DeliverySchedule where
  store_code : String
  day_of_week_num : Int
  frequency : Int
  start_date : DateTime
  departure_time : Int
  travel_days : Int
  arrival_time : Int
deriving DecidableEq, Repr

/-- The exceptions defined by the source, plus the `ZeroDivisionError` that
Python itself raises in `get_next_delivery_dates` when `frequency = 0`. -/
inductive PyErr where
  | storeNotFound
  | noDeliverySchedule
  | storeClosed
  | zeroDivision
deriving DecidableEq, Repr

/-- The `LogisticsSystem` class state: `stores` and `delivery_schedules`
dictionaries and the configured `order_processing_time` (minutes). -/
structure LogisticsSystem where
  stores : String → Option Store
  delivery_schedules : String → Option (List DeliverySchedule)
  order_processing_time : Int

/-- Arrival instant computed on a schedule match:
`datetime.combine((current_date + timedelta(days=travel_days)).date(), arrival_time)`. -/
def schedArrival (sched : DeliverySchedule) (current : DateTime) : DateTime :=
  dtCombine (dtDate (dtAddDays current sched.travel_days)) sched.arrival_time

/-- The body of the `for schedule in schedules` loop inside
`get_next_delivery_dates`, including the `break` once `count` results have
been accumulated and the `ZeroDivisionError` on `frequency = 0`. -/
def scheduleMatchStep (count : Nat) (from_date current : DateTime) :
    List DeliverySchedule → List (DeliverySchedule × DateTime) →
    Except PyErr (List (DeliverySchedule × DateTime))
  | [], acc => .ok acc
  | sched :: rest, acc =>
    if dtWeekday current = sched.day_of_week_num then
      if sched.frequency = 0 then .error .zeroDivision
      else
        if ((diffDays current sched.start_date).fdiv 7).fmod sched.frequency = 0 ∧
            sched.start_date ≤ current then
          if dtDate current = dtDate from_date ∧ sched.departure_time < dtTime from_date then
            scheduleMatchStep count from_date current rest acc
          else
            let acc' := acc ++ [(sched, schedArrival sched current)]
            if count ≤ acc'.length then .ok acc'
            else scheduleMatchStep count from_date current rest acc'
        else scheduleMatchStep count from_date current rest acc
    else scheduleMatchStep count from_date current rest acc

/-- The `while` loop of `get_next_delivery_dates`, fuelled: the loop body can
run at most 60 times (the guard requires `(current - from).days < 60`), so
fuel 61 makes the fuel bound unreachable. -/
def deliveryScan (schedules : List DeliverySchedule) (from_date : DateTime) (count : Nat) :
    Nat → DateTime → List (DeliverySchedule × DateTime) →
    Except PyErr (List (DeliverySchedule × DateTime))
  | 0, _, acc => .ok acc
  | fuel + 1, current, acc =>
    if acc.length < count ∧ diffDays current from_date < 60 then
      match scheduleMatchStep count from_date current schedules acc with
      | .error e => .error e
      | .ok acc' => deliveryScan schedules from_date count fuel (dtAddDays current 1) acc'
    else .ok acc

/-- `sorted(delivery_dates, key=lambda x: x[1])`.  Python's `sorted` is a
stable sort, and a stable sort is extensionally unique (the output is the
input reordered so that keys are nondecreasing and equal-key elements keep
their relative order), so it is modelled by the stable `List.insertionSort`
on the key `x.2`. -/
def sortByArrival (l : List (DeliverySchedule × DateTime)) :
    List (DeliverySchedule × DateTime) :=
  l.insertionSort (fun a b => a.2 ≤ b.2)

/-- `LogisticsSystem.get_next_delivery_dates`. -/
def LogisticsSystem.get_next_delivery_dates (sys : LogisticsSystem) (store_code : String)
    (from_date : DateTime) (count : Nat) :
    Except PyErr (List (DeliverySchedule × DateTime)) :=
  match sys.delivery_schedules store_code with
  | none => .error .noDeliverySchedule
  | some schedules =>
    if schedules.isEmpty then .error .noDeliverySchedule
    else
      match deliveryScan schedules from_date count 61 from_date [] with
      | .error e => .error e
      | .ok l => .ok (sortByArrival l)

/-- `LogisticsSystem.get_pickup_times`. -/
def LogisticsSystem.get_pickup_times (sys : LogisticsSystem) (store_code : String)
    (delivery_datetime : DateTime) : Except PyErr (DateTime × DateTime) :=
  match sys.stores store_code with
  | none => .error .storeNotFound
  | some store =>
    let available_time := dtAddMinutes delivery_datetime store.unloading_time
    match store.get_working_hours (dtDate available_time) with
    | none => .error .storeClosed
    | some wh =>
      let opening_time := wh.1 * 60
      let closing_time := wh.2 * 60
      if closing_time ≤ dtTime available_time then
        let next_day := dtDate available_time + 1
        match store.get_working_hours next_day with
        | none => .error .storeClosed
        | some nh => .ok (dtCombine next_day (nh.1 * 60), dtCombine next_day (nh.2 * 60))
      else
        let start_time :=
          if dtTime available_time < opening_time then
            dtCombine (dtDate available_time) opening_time
          else available_time
        .ok (start_time, dtCombine (dtDate available_time) closing_time)

/-- One entry of the result list of `get_delivery_dates`: the `date` string
(as a day number), and the two `"%H:%M"` strings of `time_range` (as
minute-of-day values; the redundant `formatted` string is derived from
these and is dropped). -/
structure PickupEntry where
  date : Int
  range_start : Int
  range_end : Int
deriving DecidableEq, Repr

/-- The returned dictionary of `get_delivery_dates`: either a `"dates"` list
or an `"error"` string. -/
inductive DeliveryResult where
  | dates : List PickupEntry → DeliveryResult
  | err : String → DeliveryResult
deriving DecidableEq, Repr

/-- The `for schedule, delivery_date in delivery_dates` loop of
`get_delivery_dates`: `StoreClosedError` is caught and the candidate
skipped; any other exception propagates. -/
def pickupAggregate (sys : LogisticsSystem) (store_code : String) (days_to_show : Nat) :
    List (DeliverySchedule × DateTime) → List PickupEntry → List Int →
    Except PyErr (List PickupEntry)
  | [], result, _ => .ok result
  | (_, delivery_date) :: rest, result, seen_dates =>
    match sys.get_pickup_times store_code delivery_date with
    | .error .storeClosed => pickupAggregate sys store_code days_to_show rest result seen_dates
    | .error e => .error e
    | .ok (start_time, end_time) =>
      let date_str := dtDate start_time
      if date_str ∈ seen_dates then
        pickupAggregate sys store_code days_to_show rest result seen_dates
      else
        let seen' := date_str :: seen_dates
        let result' := result ++ [⟨date_str, dtTime start_time, dtTime end_time⟩]
        if days_to_show ≤ result'.length then .ok result'
        else pickupAggregate sys store_code days_to_show rest result' seen'

/-- `LogisticsSystem.get_delivery_dates`. -/
def LogisticsSystem.get_delivery_dates (sys : LogisticsSystem) (store_code : String)
    (order_date : DateTime) (days_to_show : Nat) : Except PyErr DeliveryResult :=
  match sys.stores store_code with
  | none => .ok (.err "Store not found")
  | some _ =>
    let ready_datetime := dtAddMinutes order_date sys.order_processing_time
    match sys.get_next_delivery_dates store_code ready_datetime (days_to_show * 2) with
    | .error .noDeliverySchedule => .ok (.err "No delivery schedule found for this store.")
    | .error e => .error e
    | .ok delivery_dates =>
      match pickupAggregate sys store_code days_to_show delivery_dates [] [] with
      | .error e => .error e
      | .ok result =>
        if result.isEmpty then .ok (.err "No available dates for pickup in the near future")
        else .ok (.dates result)

/-- The full test of the inner conditional chain of `get_next_delivery_dates`
for one schedule on one candidate day (for a schedule with `frequency ≠ 0`,
the candidate day yields a match exactly when this holds). -/
def schedMatches (sched : DeliverySchedule) (from_date current : DateTime) : Prop :=
  dtWeekday current = sched.day_of_week_num ∧
  ((diffDays current sched.start_date).fdiv 7).fmod sched.frequency = 0 ∧
  sched.start_date ≤ current ∧
  ¬(dtDate current = dtDate from_date ∧ sched.departure_time < dtTime from_date)

instance (sched : DeliverySchedule) (from_date current : DateTime) :
    Decidable (schedMatches sched from_date current) := by
  unfold schedMatches; infer_instance

deriving instance DecidableEq for Except

/-! ### Arithmetic facts about the datetime model -/

theorem dtDate_addDays (t : DateTime) (d : Int) : dtDate (dtAddDays t d) = dtDate t + d := by
  unfold dtDate dtAddDays
  rw [Int.fdiv_eq_ediv _ (by norm_num), Int.fdiv_eq_ediv _ (by norm_num)]
  omega

theorem dtAddDays_dtAddDays (t : DateTime) (a b : Int) :
    dtAddDays (dtAddDays t a) b = dtAddDays t (a + b) := by
  unfold dtAddDays; ring

theorem diffDays_addDays_self (t : DateTime) (k : Int) : diffDays (dtAddDays t k) t = k := by
  unfold diffDays dtAddDays
  rw [Int.fdiv_eq_ediv _ (by norm_num)]
  omega

theorem diffDays_addDays_left (t s : DateTime) (k : Int) :
    diffDays (dtAddDays t k) s = diffDays t s + k := by
  unfold diffDays dtAddDays
  rw [Int.fdiv_eq_ediv _ (by norm_num), Int.fdiv_eq_ediv _ (by norm_num)]
  omega

/-! ### Concrete data used by witnesses (mirrors the demo seed of the source:
regular hours 10-20 on weekdays, 10-18 Saturday, 10-17 Sunday, one closed
date, one special-hours date, 120-minute unloading, Monday and Thursday
weekly schedules, 60-minute order processing) -/

def demoStore : Store :=
  { code := "STORE001",
    working_hours := fun w => if w = 5 then some (10, 18) else if w = 6 then some (10, 17)
      else some (10, 20),
    unloading_time := 120,
    special_schedules := fun d => if d = 15 then some (12, 16) else none,
    closed_dates := fun d => decide (d = 14) }

def demoSchedMon : DeliverySchedule :=
  { store_code := "STORE001", day_of_week_num := 0, frequency := 1, start_date := 0,
    departure_time := 480, travel_days := 2, arrival_time := 540 }

def demoSchedThu : DeliverySchedule :=
  { store_code := "STORE001", day_of_week_num := 3, frequency := 1, start_date := 0,
    departure_time := 480, travel_days := 1, arrival_time := 600 }

def demoSys : LogisticsSystem :=
  { stores := fun c => if c = "STORE001" then some demoStore else none,
    delivery_schedules := fun c => if c = "STORE001" then some [demoSchedMon, demoSchedThu]
      else none,
    order_processing_time := 60 }

/-- A store with no regular-hours entry for any weekday, no special hours
and no closed dates. -/
def noHoursStore : Store :=
  { code := "NH", working_hours := fun _ => none, unloading_time := 0,
    special_schedules := fun _ => none, closed_dates := fun _ => false }

/-! ### Claims about the Calendar Policy -/

/-- Claim C1: for every store and every date in its `closed_dates` set,
`get_working_hours` returns `None` (closed), regardless of any
`special_schedules` or regular `working_hours` entry for that date: the
`closed_dates` check runs first. -/
theorem C1_closed_dates_priority (st : Store) (date : Int)
    (h : st.closed_dates date = true) : st.get_working_hours date = none := by
  unfold Store.get_working_hours Store.is_open
  simp [h]

theorem C1_closed_dates_priority_witness :
    demoStore.closed_dates 14 = true ∧ demoStore.get_working_hours 14 = none :=
  ⟨by decide, C1_closed_dates_priority demoStore 14 (by decide)⟩

/-- Claim C5 counterexample: a date that is not closed and has no special
hours and whose weekday has no regular-hours entry.  `get_working_hours`
does return `None` for it, but `is_open` returns `True`, not `False` as the
claim states: `is_open` consults only `closed_dates`. -/
theorem C5_counterexample :
    noHoursStore.closed_dates 3 = false ∧ noHoursStore.special_schedules 3 = none ∧
    noHoursStore.working_hours (dayWeekday 3) = none ∧
    noHoursStore.get_working_hours 3 = none ∧ ¬ noHoursStore.is_open 3 = false := by
  decide

/-- Claim C5 (amended): for every store and date not in `closed_dates` and
without a `special_schedules` entry, if the date's weekday has no
`working_hours` entry then `get_working_hours` returns `None` (closed),
while `is_open` still returns `True` (it consults only `closed_dates`). -/
theorem C5_no_weekday_entry (st : Store) (date : Int)
    (hc : st.closed_dates date = false) (hs : st.special_schedules date = none)
    (hw : st.working_hours (dayWeekday date) = none) :
    st.get_working_hours date = none ∧ st.is_open date = true := by
  unfold Store.get_working_hours Store.is_open
  simp [hc, hs, hw]

theorem C5_no_weekday_entry_witness :
    noHoursStore.get_working_hours 3 = none ∧ noHoursStore.is_open 3 = true :=
  C5_no_weekday_entry noHoursStore 3 (by decide) (by decide) (by decide)

/-! ### Claims about the Pickup Window Resolver -/

/-- Claim C2: when the available instant (arrival plus unloading) has
time-of-day at or after the day's closing time, `get_pickup_times` rolls
over to the next calendar date: it raises `StoreClosedError` when the next
date has no working hours, and otherwise returns the next date's full
open-to-close interval. -/
theorem C2_rollover_after_closing (sys : LogisticsSystem) (store_code : String) (store : Store)
    (delivery_datetime : DateTime) (wh : Int × Int)
    (hstore : sys.stores store_code = some store)
    (hwh : store.get_working_hours
      (dtDate (dtAddMinutes delivery_datetime store.unloading_time)) = some wh)
    (hclose : wh.2 * 60 ≤ dtTime (dtAddMinutes delivery_datetime store.unloading_time)) :
    sys.get_pickup_times store_code delivery_datetime =
      match store.get_working_hours
          (dtDate (dtAddMinutes delivery_datetime store.unloading_time) + 1) with
      | none => .error .storeClosed
      | some nh =>
          .ok (dtCombine (dtDate (dtAddMinutes delivery_datetime store.unloading_time) + 1)
                 (nh.1 * 60),
               dtCombine (dtDate (dtAddMinutes delivery_datetime store.unloading_time) + 1)
                 (nh.2 * 60)) := by
  unfold LogisticsSystem.get_pickup_times
  rw [hstore]
  simp only [hwh, if_pos hclose]

theorem C2_rollover_after_closing_witness :
    demoSys.get_pickup_times "STORE001" 4050 = .ok (4920, 5520) := by
  have h := C2_rollover_after_closing demoSys "STORE001" demoStore 4050 (10, 20)
    rfl (by decide) (by decide)
  rw [h]; decide

/-! ### Which exceptions each function can raise -/

theorem scheduleMatchStep_error {count : Nat} {fd current : DateTime} :
    ∀ {l : List DeliverySchedule} {acc} {e},
    scheduleMatchStep count fd current l acc = .error e → e = .zeroDivision := by
  intro l
  induction l with
  | nil => intro acc e h; simp [scheduleMatchStep] at h
  | cons sched rest ih =>
    intro acc e h
    simp only [scheduleMatchStep] at h
    repeat' split at h
    all_goals first
      | (injection h with h; exact h.symm)
      | cases h
      | exact ih h

theorem deliveryScan_error {scheds : List DeliverySchedule} {fd : DateTime} {count : Nat} :
    ∀ {fuel : Nat} {current acc e},
    deliveryScan scheds fd count fuel current acc = .error e → e = .zeroDivision := by
  intro fuel
  induction fuel with
  | zero => intro current acc e h; simp [deliveryScan] at h
  | succ n ih =>
    intro current acc e h
    unfold deliveryScan at h
    split at h
    · split at h
      next heq => injection h with h; exact h ▸ scheduleMatchStep_error heq
      next acc' heq => exact ih h
    · cases h

theorem get_next_error_cases {sys : LogisticsSystem} {code : String} {fd : DateTime}
    {count : Nat} {e : PyErr}
    (h : sys.get_next_delivery_dates code fd count = .error e) :
    e = .noDeliverySchedule ∨ e = .zeroDivision := by
  unfold LogisticsSystem.get_next_delivery_dates at h
  split at h
  · injection h with h; exact .inl h.symm
  · split at h
    · injection h with h; exact .inl h.symm
    · split at h
      next heq => injection h with h; exact .inr (h ▸ deliveryScan_error heq)
      next l heq => cases h

theorem scheduleMatchStep_ok {count : Nat} {fd current : DateTime} :
    ∀ {l : List DeliverySchedule}, (∀ s ∈ l, s.frequency ≠ 0) → ∀ (acc : List _),
    ∃ acc', scheduleMatchStep count fd current l acc = .ok acc' := by
  intro l
  induction l with
  | nil => exact fun _ acc => ⟨acc, rfl⟩
  | cons sched rest ih =>
    intro hf acc
    have hs : sched.frequency ≠ 0 := hf sched (by simp)
    have hr : ∀ s ∈ rest, s.frequency ≠ 0 := fun s hm => hf s (by simp [hm])
    simp only [scheduleMatchStep]
    repeat' split
    all_goals first
      | exact absurd (by assumption) hs
      | exact ⟨_, rfl⟩
      | exact ih hr _

theorem deliveryScan_ok {scheds : List DeliverySchedule} {fd : DateTime} {count : Nat}
    (hf : ∀ s ∈ scheds, s.frequency ≠ 0) :
    ∀ (fuel : Nat) (current : DateTime) (acc : List _),
    ∃ out, deliveryScan scheds fd count fuel current acc = .ok out := by
  intro fuel
  induction fuel with
  | zero => exact fun current acc => ⟨acc, rfl⟩
  | succ n ih =>
    intro current acc
    unfold deliveryScan
    split
    · obtain ⟨acc', hacc'⟩ := scheduleMatchStep_ok hf acc
      rw [hacc']
      exact ih _ _
    · exact ⟨acc, rfl⟩

theorem get_next_ok_or_noSchedule (sys : LogisticsSystem) (code : String) (fd : DateTime)
    (count : Nat)
    (hf : ∀ s ∈ (sys.delivery_schedules code).getD [], s.frequency ≠ 0) :
    (∃ out, sys.get_next_delivery_dates code fd count = .ok out) ∨
      sys.get_next_delivery_dates code fd count = .error .noDeliverySchedule := by
  unfold LogisticsSystem.get_next_delivery_dates
  split
  · exact .inr rfl
  next l heq =>
    split
    · exact .inr rfl
    · have hf' : ∀ s ∈ l, s.frequency ≠ 0 := by rw [heq] at hf; simpa using hf
      obtain ⟨out, hout⟩ := deliveryScan_ok hf' 61 fd []
      rw [hout]
      exact .inl ⟨_, rfl⟩

theorem get_pickup_times_error_cases {sys : LogisticsSystem} {code : String} {d : DateTime}
    {e : PyErr} (h : sys.get_pickup_times code d = .error e) :
    e = .storeNotFound ∨ e = .storeClosed := by
  simp only [LogisticsSystem.get_pickup_times] at h
  repeat' split at h
  all_goals first
    | (injection h with h; exact .inl h.symm)
    | (injection h with h; exact .inr h.symm)
    | cases h

theorem get_pickup_times_error_with_store {sys : LogisticsSystem} {code : String}
    {store : Store} {d : DateTime} {e : PyErr}
    (hstore : sys.stores code = some store)
    (h : sys.get_pickup_times code d = .error e) : e = .storeClosed := by
  simp only [LogisticsSystem.get_pickup_times, hstore] at h
  repeat' split at h
  all_goals first
    | (injection h with h; exact h.symm)
    | cases h

theorem pickupAggregate_ok {sys : LogisticsSystem} {code : String} {store : Store}
    {days : Nat} (hstore : sys.stores code = some store) :
    ∀ (l : List (DeliverySchedule × DateTime)) (result : List PickupEntry) (seen : List Int),
    ∃ out, pickupAggregate sys code days l result seen = .ok out := by
  intro l
  induction l with
  | nil => exact fun result seen => ⟨result, rfl⟩
  | cons p rest ih =>
    intro result seen
    obtain ⟨sched, d⟩ := p
    cases hp : sys.get_pickup_times code d with
    | error e =>
      have he := get_pickup_times_error_with_store hstore hp
      subst he
      simpa only [pickupAggregate, hp] using ih result seen
    | ok pr =>
      obtain ⟨st, et⟩ := pr
      simp only [pickupAggregate, hp]
      split
      · exact ih result seen
      · split
        · exact ⟨_, rfl⟩
        · exact ih _ _

theorem pickupAggregate_error {sys : LogisticsSystem} {code : String} {days : Nat} :
    ∀ {l : List (DeliverySchedule × DateTime)} {result seen e},
    pickupAggregate sys code days l result seen = .error e → e = .storeNotFound := by
  intro l
  induction l with
  | nil => intro result seen e h; simp [pickupAggregate] at h
  | cons p rest ih =>
    intro result seen e h
    obtain ⟨sched, d⟩ := p
    cases hp : sys.get_pickup_times code d with
    | error e' =>
      rcases get_pickup_times_error_cases hp with h1 | h1 <;> subst h1
      · simp only [pickupAggregate, hp] at h
        injection h with h; exact h.symm
      · simp only [pickupAggregate, hp] at h
        exact ih h
    | ok pr =>
      obtain ⟨st, et⟩ := pr
      simp only [pickupAggregate, hp] at h
      split at h
      · exact ih h
      · split at h
        · cases h
        · exact ih h

theorem get_delivery_dates_error_cases {sys : LogisticsSystem} {code : String}
    {od : DateTime} {days : Nat} {e : PyErr}
    (h : sys.get_delivery_dates code od days = .error e) :
    e = .zeroDivision ∨ e = .storeNotFound := by
  simp only [LogisticsSystem.get_delivery_dates] at h
  split at h
  · cases h
  · cases hnext : sys.get_next_delivery_dates code (dtAddMinutes od sys.order_processing_time)
        (days * 2) with
    | error e' =>
      rw [hnext] at h
      rcases get_next_error_cases hnext with h1 | h1 <;> subst h1
      · cases h
      · injection h with h; exact .inl h.symm
    | ok dd =>
      rw [hnext] at h
      dsimp only at h
      cases hagg : pickupAggregate sys code days dd [] [] with
      | error e' =>
        rw [hagg] at h
        injection h with h
        exact .inr (h ▸ pickupAggregate_error hagg)
      | ok result =>
        rw [hagg] at h
        dsimp only at h
        split at h <;> cases h

theorem dtAddDays_zero (t : DateTime) : dtAddDays t 0 = t := by
  unfold dtAddDays; ring

theorem scheduleMatchStep_nomatch {count : Nat} {fd current : DateTime} :
    ∀ {l : List DeliverySchedule} (acc : List (DeliverySchedule × DateTime)),
    (∀ s ∈ l, ¬ schedMatches s fd current) → (∀ s ∈ l, s.frequency ≠ 0) →
    scheduleMatchStep count fd current l acc = .ok acc := by
  intro l
  induction l with
  | nil => intro acc _ _; rfl
  | cons sched rest ih =>
    intro acc hnm hf
    have hn : ¬ schedMatches sched fd current := hnm sched (by simp)
    have htail := ih acc (fun s hs => hnm s (by simp [hs])) (fun s hs => hf s (by simp [hs]))
    simp only [scheduleMatchStep]
    split
    next h1 =>
      split
      next h0 => exact absurd h0 (hf sched (by simp))
      next h0 =>
        split
        next h2 =>
          split
          next h4 => exact htail
          next h4 => exact absurd ⟨h1, h2.1, h2.2, h4⟩ hn
        next h2 => exact htail
    next h1 => exact htail

theorem deliveryScan_nomatch {scheds : List DeliverySchedule} {fd : DateTime} {count : Nat}
    (hf : ∀ s ∈ scheds, s.frequency ≠ 0)
    (hnm : ∀ k : Nat, k < 60 → ∀ s ∈ scheds, ¬ schedMatches s fd (dtAddDays fd (k : Int))) :
    ∀ (fuel k : Nat), deliveryScan scheds fd count fuel (dtAddDays fd (k : Int)) [] = .ok [] := by
  intro fuel
  induction fuel with
  | zero => intro k; rfl
  | succ n ih =>
    intro k
    unfold deliveryScan
    split
    next hcond =>
      have hk : ((k : Int)) < 60 := by
        have h60 := hcond.2
        rwa [diffDays_addDays_self] at h60
      have hk' : k < 60 := by exact_mod_cast hk
      rw [scheduleMatchStep_nomatch [] (fun s hs => hnm k hk' s hs) hf]
      rw [dtAddDays_dtAddDays]
      have hcast : ((k : Int) + 1) = ((k + 1 : Nat) : Int) := by push_cast; ring
      rw [hcast]
      exact ih (k + 1)
    next => rfl

/-! ### Claims about the Delivery Schedule Enumerator's error behaviour -/

/-- Claim C3: `get_next_delivery_dates` raises `NoDeliveryScheduleError` iff
the store has zero schedules registered (no entry, or an empty list); a
store with (division-safe) schedules but zero matches within the 60-day
horizon yields the empty list, not an error. -/
theorem C3_no_schedule_error (sys : LogisticsSystem) (store_code : String)
    (from_date : DateTime) (count : Nat) :
    (sys.get_next_delivery_dates store_code from_date count = .error .noDeliverySchedule ↔
      sys.delivery_schedules store_code = none ∨
        sys.delivery_schedules store_code = some []) ∧
    (∀ scheds, sys.delivery_schedules store_code = some scheds → scheds ≠ [] →
      (∀ s ∈ scheds, s.frequency ≠ 0) →
      (∀ k : Nat, k < 60 → ∀ s ∈ scheds, ¬ schedMatches s from_date (dtAddDays from_date (k : Int))) →
      sys.get_next_delivery_dates store_code from_date count = .ok []) := by
  constructor
  · constructor
    · intro h
      unfold LogisticsSystem.get_next_delivery_dates at h
      split at h
      · exact .inl (by assumption)
      next l heq =>
        split at h
        next hemp => exact .inr (heq.trans (by rw [List.isEmpty_iff.mp hemp]))
        next hemp =>
          cases hscan : deliveryScan l from_date count 61 from_date [] with
          | error e =>
            rw [hscan] at h
            injection h with h
            have := deliveryScan_error hscan
            subst this
            cases h
          | ok out => rw [hscan] at h; cases h
    · intro h
      unfold LogisticsSystem.get_next_delivery_dates
      rcases h with h | h
      · rw [h]
      · rw [h]; rfl
  · intro scheds heq hne hf hnm
    unfold LogisticsSystem.get_next_delivery_dates
    rw [heq]
    dsimp only
    rw [if_neg (by simp [List.isEmpty_iff, hne])]
    have h0 : deliveryScan scheds from_date count 61 from_date [] = .ok [] := by
      have hscan := @deliveryScan_nomatch scheds from_date count hf hnm 61 0
      rwa [Nat.cast_zero, dtAddDays_zero] at hscan
    rw [h0]
    rfl

/-- A system with no schedules registered at all. -/
def noSchedSys : LogisticsSystem :=
  { stores := fun _ => none, delivery_schedules := fun _ => none, order_processing_time := 0 }

/-- A schedule whose `start_date` (day 100) lies beyond the 60-day horizon
of a scan starting at day 0. -/
def futureSched : DeliverySchedule :=
  { store_code := "F", day_of_week_num := 0, frequency := 1, start_date := 144000,
    departure_time := 0, travel_days := 0, arrival_time := 0 }

def futureSys : LogisticsSystem :=
  { stores := fun _ => none,
    delivery_schedules := fun c => if c = "F" then some [futureSched] else none,
    order_processing_time := 0 }

theorem C3_no_schedule_error_witness :
    noSchedSys.get_next_delivery_dates "X" 0 3 = .error .noDeliverySchedule ∧
    futureSys.get_next_delivery_dates "F" 0 3 = .ok [] :=
  ⟨(C3_no_schedule_error noSchedSys "X" 0 3).1.mpr (Or.inl rfl),
   (C3_no_schedule_error futureSys "F" 0 3).2 [futureSched] rfl (by decide) (by decide)
     (by decide)⟩

/-! ### Claims about the Aggregator's error behaviour -/

/-- Claim C8: a `StoreClosedError` raised by `get_pickup_times` for a
candidate is caught by `get_delivery_dates`' loop, which skips that
candidate and continues with the rest; `get_delivery_dates` never lets a
`StoreClosedError` escape, and every error string it returns is one of the
three aggregator-level messages (never a store-closed message). -/
theorem C8_store_closed_absorbed (sys : LogisticsSystem) (store_code : String)
    (days_to_show : Nat) :
    (∀ (sched : DeliverySchedule) (d : DateTime) rest result seen,
      sys.get_pickup_times store_code d = .error .storeClosed →
      pickupAggregate sys store_code days_to_show ((sched, d) :: rest) result seen =
        pickupAggregate sys store_code days_to_show rest result seen) ∧
    (∀ order_date,
      sys.get_delivery_dates store_code order_date days_to_show ≠ .error .storeClosed) ∧
    (∀ order_date msg,
      sys.get_delivery_dates store_code order_date days_to_show = .ok (.err msg) →
      msg = "Store not found" ∨ msg = "No delivery schedule found for this store." ∨
      msg = "No available dates for pickup in the near future") := by
  refine ⟨?_, ?_, ?_⟩
  · intro sched d rest result seen h
    simp only [pickupAggregate, h]
  · intro od h
    rcases get_delivery_dates_error_cases h with h1 | h1 <;> cases h1
  · intro od msg h
    simp only [LogisticsSystem.get_delivery_dates] at h
    split at h
    · injection h with h; injection h with h; exact .inl h.symm
    · cases hnext : sys.get_next_delivery_dates store_code
          (dtAddMinutes od sys.order_processing_time) (days_to_show * 2) with
      | error e' =>
        rw [hnext] at h
        rcases get_next_error_cases hnext with h1 | h1 <;> subst h1
        · injection h with h; injection h with h; exact .inr (.inl h.symm)
        · cases h
      | ok dd =>
        rw [hnext] at h
        dsimp only at h
        cases hagg : pickupAggregate sys store_code days_to_show dd [] [] with
        | error e' => rw [hagg] at h; cases h
        | ok result =>
          rw [hagg] at h
          dsimp only at h
          split at h
          · injection h with h; injection h with h; exact .inr (.inr h.symm)
          · injection h with h; cases h

theorem C8_store_closed_absorbed_witness :
    pickupAggregate demoSys "STORE001" 5 [(demoSchedMon, 20160)] [] [] =
      pickupAggregate demoSys "STORE001" 5 [] [] [] ∧
    demoSys.get_delivery_dates "STORE001" 420 5 ≠ .error .storeClosed :=
  ⟨(C8_store_closed_absorbed demoSys "STORE001" 5).1 demoSchedMon 20160 [] [] [] (by decide),
   (C8_store_closed_absorbed demoSys "STORE001" 5).2.1 420⟩

/-- Claim C10: `get_delivery_dates` is total at the public interface: for
any store code, order instant and `days_to_show` (over a catalog whose
schedules respect the documented `frequency >= 1` invariant, here in the
weaker form `frequency ≠ 0` that excludes Python's `ZeroDivisionError`),
it returns a result dictionary and never lets an exception escape; in
particular the `StoreNotFoundError` branch of `get_pickup_times` is
unreachable because the store was already looked up successfully. -/
theorem C10_total (sys : LogisticsSystem) (store_code : String) (order_date : DateTime)
    (days_to_show : Nat)
    (hf : ∀ s ∈ (sys.delivery_schedules store_code).getD [], s.frequency ≠ 0) :
    ∃ r, sys.get_delivery_dates store_code order_date days_to_show = .ok r := by
  cases hstore : sys.stores store_code with
  | none =>
    refine ⟨.err "Store not found", ?_⟩
    simp only [LogisticsSystem.get_delivery_dates, hstore]
  | some store =>
    simp only [LogisticsSystem.get_delivery_dates, hstore]
    rcases get_next_ok_or_noSchedule sys store_code
        (dtAddMinutes order_date sys.order_processing_time)
        (days_to_show * 2) hf with ⟨out, hout⟩ | hout
    · rw [hout]
      dsimp only
      obtain ⟨res, hres⟩ := pickupAggregate_ok hstore out [] []
      rw [hres]
      dsimp only
      split
      · exact ⟨_, rfl⟩
      · exact ⟨_, rfl⟩
    · rw [hout]
      exact ⟨_, rfl⟩

theorem C10_total_witness : ∃ r, demoSys.get_delivery_dates "STORE001" 420 5 = .ok r :=
  C10_total demoSys "STORE001" 420 5 (by decide)

/-- A system holding only the Monday weekly schedule (departure 08:00,
2 travel days, arrival 09:00) with 60-minute order processing. -/
def mondaySys : LogisticsSystem :=
  { stores := fun _ => none,
    delivery_schedules := fun c => if c = "STORE001" then some [demoSchedMon] else none,
    order_processing_time := 60 }

/-- Claim C4: when the candidate date equals `from_date`'s date, a schedule
matches exactly when its departure time is not strictly before `from_date`'s
time-of-day (equality still catches the truck); concretely, an order placed
Monday 07:00 (minute 420 of Monday day 0) with 60-minute processing is ready
Monday 08:00 (minute 480), that Monday's 08:00 departure is still matched,
and the first yielded arrival is minute 3420 = the Wednesday two days later
(day 2) at 09:00. -/
theorem C4_departure_time_boundary :
    (∀ (sched : DeliverySchedule) (from_date current : DateTime),
      dtDate current = dtDate from_date →
      (schedMatches sched from_date current ↔
        (dtWeekday current = sched.day_of_week_num ∧
         ((diffDays current sched.start_date).fdiv 7).fmod sched.frequency = 0 ∧
         sched.start_date ≤ current ∧
         dtTime from_date ≤ sched.departure_time))) ∧
    (dtAddMinutes 420 mondaySys.order_processing_time = 480 ∧
     schedMatches demoSchedMon 480 480 ∧
     mondaySys.get_next_delivery_dates "STORE001" 480 3 =
       .ok [(demoSchedMon, 3420), (demoSchedMon, 13500), (demoSchedMon, 23580)] ∧
     dtDate 3420 = 2 ∧ dtWeekday 3420 = 2 ∧ dtTime 3420 = 540) := by
  constructor
  · intro sched from_date current hdate
    unfold schedMatches
    constructor
    · rintro ⟨h1, h2, h3, h4⟩
      refine ⟨h1, h2, h3, ?_⟩
      by_contra hlt
      push_neg at hlt
      exact h4 ⟨hdate, hlt⟩
    · rintro ⟨h1, h2, h3, h4⟩
      exact ⟨h1, h2, h3, fun hc => absurd hc.2 (not_lt.mpr h4)⟩
  · refine ⟨by decide, by decide, by decide, by decide, by decide, by decide⟩

theorem C4_departure_time_boundary_witness : schedMatches demoSchedMon 480 480 :=
  (C4_departure_time_boundary.1 demoSchedMon 480 480 rfl).mpr (by decide)

theorem schedArrival_addDays (s : DeliverySchedule) (fd : DateTime) (j : Int) :
    schedArrival s (dtAddDays fd j) =
      1440 * (dtDate fd + j + s.travel_days) + s.arrival_time := by
  unfold schedArrival dtCombine
  rw [dtAddDays_dtAddDays, dtDate_addDays]
  ring

/-- The match test of one scan day, rephrased on the day index `k` (the scan
visits `current = from_date + k days`). -/
theorem schedMatches_addDays (s : DeliverySchedule) (fd : DateTime) (k : Nat) :
    schedMatches s fd (dtAddDays fd (k : Int)) ↔
      ((dtDate fd + (k : Int)).fmod 7 = s.day_of_week_num ∧
       ((diffDays fd s.start_date + (k : Int)).fdiv 7).fmod s.frequency = 0 ∧
       s.start_date ≤ dtAddDays fd (k : Int) ∧
       ¬(k = 0 ∧ s.departure_time < dtTime fd)) := by
  unfold schedMatches dtWeekday dayWeekday
  rw [dtDate_addDays, diffDays_addDays_left]
  have h4 : (dtDate fd + (k : Int) = dtDate fd) ↔ (k = 0) := by omega
  rw [h4]

/-- Key arithmetic fact behind the `7 * frequency` spacing: two matching scan
days with no matching day strictly between them are exactly `7 * frequency`
days apart. -/
theorem match_gap (s : DeliverySchedule) (fd : DateTime) (hf : 1 ≤ s.frequency)
    (j k : Nat) (hjk : j < k)
    (hj : schedMatches s fd (dtAddDays fd (j : Int)))
    (hk : schedMatches s fd (dtAddDays fd (k : Int)))
    (hbet : ∀ i : Nat, j < i → i < k → ¬ schedMatches s fd (dtAddDays fd (i : Int))) :
    (k : Int) = j + 7 * s.frequency := by
  rw [schedMatches_addDays] at hj hk
  obtain ⟨hj1, hj2, hj3, _⟩ := hj
  obtain ⟨hk1, hk2, _, _⟩ := hk
  rw [Int.fmod_eq_emod _ (by norm_num)] at hj1 hk1
  rw [Int.fdiv_eq_ediv _ (by norm_num), Int.fmod_eq_emod _ (by omega)] at hj2 hk2
  have h7 : ((k : Int) - j) % 7 = 0 := by omega
  obtain ⟨m, hm⟩ := Int.dvd_of_emod_eq_zero h7
  have hm1 : 1 ≤ m := by omega
  have hw : (diffDays fd s.start_date + (k : Int)) / 7 =
      (diffDays fd s.start_date + (j : Int)) / 7 + m := by omega
  have hfm : s.frequency ∣ m := by
    have hsub := (Int.dvd_of_emod_eq_zero hk2).sub (Int.dvd_of_emod_eq_zero hj2)
    rw [hw] at hsub
    simpa using hsub
  have hmf : s.frequency ≤ m := Int.le_of_dvd (by omega) hfm
  by_contra hne
  have hflt : s.frequency < m := by omega
  have hiInt : ((j + (7 * s.frequency).toNat : Nat) : Int) = j + 7 * s.frequency := by
    push_cast
    rw [Int.toNat_of_nonneg (by omega)]
  apply hbet (j + (7 * s.frequency).toNat) (by omega) (by omega)
  rw [schedMatches_addDays]
  refine ⟨?_, ?_, ?_, ?_⟩
  · rw [Int.fmod_eq_emod _ (by norm_num), hiInt]
    omega
  · rw [Int.fdiv_eq_ediv _ (by norm_num), Int.fmod_eq_emod _ (by omega), hiInt]
    have hstep : (diffDays fd s.start_date + ((j : Int) + 7 * s.frequency)) / 7 =
        (diffDays fd s.start_date + (j : Int)) / 7 + s.frequency := by omega
    rw [hstep]
    have hrw : (diffDays fd s.start_date + (j : Int)) / 7 + s.frequency =
        (diffDays fd s.start_date + (j : Int)) / 7 + 1 * s.frequency := by ring
    rw [hrw, Int.add_mul_emod_self]
    exact hj2
  · unfold dtAddDays at hj3 ⊢
    rw [hiInt]
    have hexp : fd + 1440 * ((j : Int) + 7 * s.frequency) =
        fd + 1440 * (j : Int) + 10080 * s.frequency := by ring
    rw [hexp]
    linarith
  · rintro ⟨hi0, _⟩
    omega

/-- The sub-stream of enumerator entries that belong to schedule `s`. -/
def filterSched (s : DeliverySchedule) (l : List (DeliverySchedule × DateTime)) :
    List (DeliverySchedule × DateTime) :=
  l.filter (fun e => decide (e.1 = s))

/-- Two consecutive enumerator entries of the same schedule are exactly
`7 * frequency` days apart. -/
def chainGap (s : DeliverySchedule) :
    (DeliverySchedule × DateTime) → (DeliverySchedule × DateTime) → Prop :=
  fun a b => b.2 = a.2 + 1440 * (7 * s.frequency)

theorem filterSched_append (s : DeliverySchedule) (l1 l2 : List (DeliverySchedule × DateTime)) :
    filterSched s (l1 ++ l2) = filterSched s l1 ++ filterSched s l2 := by
  unfold filterSched
  rw [List.filter_append]

theorem scheduleMatchStep_filterSched_not_mem {count : Nat} {fd current : DateTime}
    {s : DeliverySchedule} :
    ∀ {l : List DeliverySchedule} {acc acc'}, s ∉ l →
    scheduleMatchStep count fd current l acc = .ok acc' →
    filterSched s acc' = filterSched s acc := by
  intro l
  induction l with
  | nil =>
    intro acc acc' _ h
    injection h with h
    rw [h]
  | cons sched rest ih =>
    intro acc acc' hnm h
    have hns : sched ≠ s := fun he => hnm (he ▸ List.mem_cons_self _ _)
    have hnr : s ∉ rest := fun hm => hnm (List.mem_cons_of_mem _ hm)
    simp only [scheduleMatchStep] at h
    repeat' split at h
    all_goals first
      | exact ih hnr h
      | (injection h with h; rw [← h, filterSched_append]; simp [filterSched, hns])
      | (rw [ih hnr h, filterSched_append]; simp [filterSched, hns])
      | cases h

theorem scheduleMatchStep_filterSched_once {count : Nat} {fd current : DateTime}
    {s : DeliverySchedule} :
    ∀ {l : List DeliverySchedule} {acc acc'}, s ∈ l → ¬ List.Duplicate s l →
    scheduleMatchStep count fd current l acc = .ok acc' →
    (filterSched s acc' = filterSched s acc ∧
      (¬ schedMatches s fd current ∨ count ≤ acc'.length)) ∨
    (schedMatches s fd current ∧
      filterSched s acc' = filterSched s acc ++ [(s, schedArrival s current)]) := by
  intro l
  induction l with
  | nil => intro acc acc' hmem _ h; exact absurd hmem (List.not_mem_nil s)
  | cons sched rest ih =>
    intro acc acc' hmem hnd h
    by_cases hs : sched = s
    · rw [hs] at h hnd
      have hnotr : s ∉ rest := fun hm => hnd (List.Mem.duplicate_cons_self hm)
      simp only [scheduleMatchStep] at h
      split at h
      next h1 =>
        split at h
        next h0 => cases h
        next h0 =>
          split at h
          next h2 =>
            split at h
            next h4 =>
              exact .inl ⟨scheduleMatchStep_filterSched_not_mem hnotr h,
                .inl (fun hM => hM.2.2.2 h4)⟩
            next h4 =>
              have hM : schedMatches s fd current := ⟨h1, h2.1, h2.2, h4⟩
              split at h
              · injection h with h
                refine .inr ⟨hM, ?_⟩
                rw [← h, filterSched_append]
                simp [filterSched]
              · refine .inr ⟨hM, ?_⟩
                rw [scheduleMatchStep_filterSched_not_mem hnotr h, filterSched_append]
                simp [filterSched]
          next h2 =>
            exact .inl ⟨scheduleMatchStep_filterSched_not_mem hnotr h,
              .inl (fun hM => h2 ⟨hM.2.1, hM.2.2.1⟩)⟩
      next h1 =>
        exact .inl ⟨scheduleMatchStep_filterSched_not_mem hnotr h,
          .inl (fun hM => h1 hM.1)⟩
    · have hmemr : s ∈ rest := by
        rcases List.mem_cons.mp hmem with he | hm
        · exact absurd he.symm hs
        · exact hm
      have hndr : ¬ List.Duplicate s rest := fun hd => hnd (List.Duplicate.duplicate_cons hd _)
      simp only [scheduleMatchStep] at h
      split at h
      next h1 =>
        split at h
        next h0 => cases h
        next h0 =>
          split at h
          next h2 =>
            split at h
            next h4 => exact ih hmemr hndr h
            next h4 =>
              split at h
              next hcap =>
                injection h with h
                refine .inl ⟨?_, .inr ?_⟩
                · rw [← h, filterSched_append]
                  simp [filterSched, hs]
                · rw [← h]
                  exact hcap
              next hcap =>
                rcases ih hmemr hndr h with ⟨heq, hside⟩ | ⟨hM, heq⟩
                · refine .inl ⟨?_, hside⟩
                  rw [heq, filterSched_append]
                  simp [filterSched, hs]
                · refine .inr ⟨hM, ?_⟩
                  rw [heq, filterSched_append]
                  simp [filterSched, hs]
          next h2 => exact ih hmemr hndr h
      next h1 => exact ih hmemr hndr h

theorem deliveryScan_exit (scheds : List DeliverySchedule) (fd : DateTime) (count : Nat)
    (fuel : Nat) (current : DateTime) (acc : List (DeliverySchedule × DateTime))
    (hcap : count ≤ acc.length) :
    deliveryScan scheds fd count fuel current acc = .ok acc := by
  cases fuel
  · rfl
  · unfold deliveryScan
    rw [if_neg]
    rintro ⟨h1, _⟩
    omega

/-- Invariant of the scan loop for one schedule `s`: the `s`-entries
accumulated so far are `7 * frequency` days apart, and (unless there are
none) the last one came from a scan day `j < k` with no matching day
between `j` and the current day `k`. -/
theorem deliveryScan_chain {s : DeliverySchedule} {scheds : List DeliverySchedule}
    {fd : DateTime} {count : Nat}
    (hmem : s ∈ scheds) (hnd : ¬ List.Duplicate s scheds) (hf : 1 ≤ s.frequency) :
    ∀ (fuel k : Nat) (acc out : List (DeliverySchedule × DateTime)),
    deliveryScan scheds fd count fuel (dtAddDays fd (k : Int)) acc = .ok out →
    List.Chain' (chainGap s) (filterSched s acc) →
    (filterSched s acc = [] ∨
      ∃ j : Nat, j < k ∧ schedMatches s fd (dtAddDays fd (j : Int)) ∧
        (filterSched s acc).getLast? = some (s, schedArrival s (dtAddDays fd (j : Int))) ∧
        (∀ i : Nat, j < i → i < k → ¬ schedMatches s fd (dtAddDays fd (i : Int)))) →
    List.Chain' (chainGap s) (filterSched s out) := by
  intro fuel
  induction fuel with
  | zero =>
    intro k acc out h hchain hlast
    injection h with h
    rw [← h]
    exact hchain
  | succ n ih =>
    intro k acc out h hchain hlast
    unfold deliveryScan at h
    split at h
    case isFalse =>
      injection h with h
      rw [← h]
      exact hchain
    case isTrue hcond =>
      cases hstep : scheduleMatchStep count fd (dtAddDays fd (k : Int)) scheds acc with
      | error e => rw [hstep] at h; cases h
      | ok acc1 =>
        rw [hstep] at h
        dsimp only at h
        rw [dtAddDays_dtAddDays] at h
        have hcast : ((k : Int) + 1) = ((k + 1 : Nat) : Int) := by push_cast; ring
        rw [hcast] at h
        rcases scheduleMatchStep_filterSched_once hmem hnd hstep with ⟨heq, hside⟩ | ⟨hM, heq⟩
        · rcases hside with hnM | hcap
          · refine ih (k + 1) acc1 out h (by rw [heq]; exact hchain) ?_
            rcases hlast with hnil | ⟨j, hjk, hMj, hlastj, hbet⟩
            · exact .inl (by rw [heq]; exact hnil)
            · refine .inr ⟨j, by omega, hMj, by rw [heq]; exact hlastj, ?_⟩
              intro i hji hik
              by_cases hik' : i < k
              · exact hbet i hji hik'
              · have hik'' : i = k := by omega
                rw [hik'']
                exact hnM
          · rw [deliveryScan_exit scheds fd count n _ acc1 hcap] at h
            injection h with h
            rw [← h, heq]
            exact hchain
        · rcases hlast with hnil | ⟨j, hjk, hMj, hlastj, hbet⟩
          · have hchain1 : List.Chain' (chainGap s) (filterSched s acc1) := by
              rw [heq, hnil]
              simp
            refine ih (k + 1) acc1 out h hchain1 (.inr ⟨k, by omega, hM, ?_, ?_⟩)
            · rw [heq, hnil]
              simp
            · intro i h1 h2
              omega
          · have hgap : (k : Int) = j + 7 * s.frequency :=
              match_gap s fd hf j k hjk hMj hM hbet
            have harr : schedArrival s (dtAddDays fd (k : Int)) =
                schedArrival s (dtAddDays fd (j : Int)) + 1440 * (7 * s.frequency) := by
              rw [schedArrival_addDays, schedArrival_addDays, hgap]
              ring
            have hchain1 : List.Chain' (chainGap s) (filterSched s acc1) := by
              rw [heq]
              refine List.chain'_append.mpr ⟨hchain, by simp, ?_⟩
              intro x hx y hy
              rw [hlastj] at hx
              simp only [Option.mem_def, Option.some.injEq, List.head?_cons] at hx hy
              rw [← hx, ← hy]
              exact harr
            refine ih (k + 1) acc1 out h hchain1 (.inr ⟨k, by omega, hM, ?_, ?_⟩)
            · rw [heq]
              exact List.getLast?_concat _
            · intro i h1 h2
              omega

/-! ### Claim C6: biweekly-and-slower schedules fire every `7 * frequency` days -/

/-- Claim C6: for a schedule `s` with `frequency > 1` (registered once for
its store), any two consecutive entries for `s` in the stream yielded by
`get_next_delivery_dates` are exactly `7 * frequency` days (that many whole
days, at the same arrival time) apart. -/
theorem C6_frequency_gap (sys : LogisticsSystem) (store_code : String)
    (scheds : List DeliverySchedule) (s : DeliverySchedule) (from_date : DateTime)
    (count : Nat) (out : List (DeliverySchedule × DateTime))
    (hs : sys.delivery_schedules store_code = some scheds)
    (hmem : s ∈ scheds) (hnd : ¬ List.Duplicate s scheds) (hf : 1 < s.frequency)
    (hout : sys.get_next_delivery_dates store_code from_date count = .ok out) :
    List.Chain' (chainGap s) (filterSched s out) := by
  unfold LogisticsSystem.get_next_delivery_dates at hout
  rw [hs] at hout
  dsimp only at hout
  rw [if_neg (by simp only [List.isEmpty_iff]; exact List.ne_nil_of_mem hmem)] at hout
  cases hscan : deliveryScan scheds from_date count 61 from_date [] with
  | error e => rw [hscan] at hout; cases hout
  | ok raw =>
    rw [hscan] at hout
    injection hout with hout
    have hscan0 : deliveryScan scheds from_date count 61
        (dtAddDays from_date ((0 : Nat) : Int)) [] = .ok raw := by
      rwa [Nat.cast_zero, dtAddDays_zero]
    have hraw : List.Chain' (chainGap s) (filterSched s raw) :=
      deliveryScan_chain hmem hnd (le_of_lt hf) 61 0 [] raw hscan0
        (by simp [filterSched]) (.inl (by simp [filterSched]))
    have hlt : List.Chain' (fun a b => a.2 < b.2) (filterSched s raw) := by
      refine hraw.imp ?_
      intro a b hab
      rw [hab]
      have hpos : 0 < 1440 * (7 * s.frequency) := by positivity
      linarith
    have htrans : IsTrans (DeliverySchedule × DateTime) (fun a b => a.2 < b.2) :=
      ⟨fun a b c h1 h2 => lt_trans h1 h2⟩
    have hpw : (filterSched s raw).Pairwise (fun a b => a.2 < b.2) :=
      (@List.chain'_iff_pairwise _ (fun a b => a.2 < b.2) htrans _).mp hlt
    have hple : (filterSched s raw).Pairwise (fun a b => a.2 ≤ b.2) :=
      hpw.imp le_of_lt
    have hsub : List.Sublist (filterSched s raw) (sortByArrival raw) :=
      List.sublist_insertionSort hple (List.filter_sublist raw)
    have hall : ∀ x ∈ filterSched s raw, (fun e => decide (e.1 = s)) x = true :=
      fun x hx => (List.mem_filter.mp hx).2
    have hsub2 : List.Sublist (filterSched s raw) (filterSched s (sortByArrival raw)) := by
      have h1 := List.Sublist.filter (fun e => decide (e.1 = s)) hsub
      rwa [List.filter_eq_self.mpr hall] at h1
    have hperm : List.Perm (filterSched s (sortByArrival raw)) (filterSched s raw) :=
      (List.perm_insertionSort _ raw).filter _
    have heqf : filterSched s raw = filterSched s (sortByArrival raw) :=
      hsub2.eq_of_length hperm.length_eq.symm
    rw [← hout, ← heqf]
    exact hraw

/-- A biweekly Monday schedule starting at day 0. -/
def biweeklySched : DeliverySchedule :=
  { store_code := "B", day_of_week_num := 0, frequency := 2, start_date := 0,
    departure_time := 480, travel_days := 2, arrival_time := 540 }

def biweeklySys : LogisticsSystem :=
  { stores := fun _ => none,
    delivery_schedules := fun c => if c = "B" then some [biweeklySched] else none,
    order_processing_time := 0 }

theorem C6_frequency_gap_witness :
    List.Chain' (chainGap biweeklySched)
      (filterSched biweeklySched
        [(biweeklySched, 3420), (biweeklySched, 23580), (biweeklySched, 43740),
         (biweeklySched, 63900), (biweeklySched, 84060)]) :=
  C6_frequency_gap biweeklySys "B" [biweeklySched] biweeklySched 0 5
    [(biweeklySched, 3420), (biweeklySched, 23580), (biweeklySched, 43740),
     (biweeklySched, 63900), (biweeklySched, 84060)]
    rfl (by decide) (by decide) (by decide) (by decide)

/-! ### Claim C7: weekly schedules fire on every weekday occurrence in the horizon -/

/-- The scan days in `[k, 60)` on which schedule `s` matches. -/
def matchTail (s : DeliverySchedule) (fd : DateTime) (k : Nat) : List Nat :=
  (List.range' k (60 - k)).filter
    (fun j => decide (schedMatches s fd (dtAddDays fd (j : Int))))

theorem scheduleMatchStep_single {count : Nat} {fd current : DateTime} {s : DeliverySchedule}
    {acc : List (DeliverySchedule × DateTime)} (hf0 : s.frequency ≠ 0) :
    scheduleMatchStep count fd current [s] acc =
      .ok (if schedMatches s fd current then acc ++ [(s, schedArrival s current)]
        else acc) := by
  simp only [scheduleMatchStep]
  by_cases h1 : dtWeekday current = s.day_of_week_num
  · rw [if_pos h1, if_neg hf0]
    by_cases h2 : ((diffDays current s.start_date).fdiv 7).fmod s.frequency = 0 ∧
        s.start_date ≤ current
    · rw [if_pos h2]
      by_cases h4 : dtDate current = dtDate fd ∧ s.departure_time < dtTime fd
      · rw [if_pos h4, if_neg (fun hM => hM.2.2.2 h4)]
      · rw [if_neg h4, if_pos (show schedMatches s fd current from ⟨h1, h2.1, h2.2, h4⟩)]
        split
        · rfl
        · rfl
    · rw [if_neg h2, if_neg (fun hM => h2 ⟨hM.2.1, hM.2.2.1⟩)]
  · rw [if_neg h1, if_neg (fun hM => h1 hM.1)]

theorem matchTail_stop (s : DeliverySchedule) (fd : DateTime) (k : Nat) (hk : 60 ≤ k) :
    matchTail s fd k = [] := by
  unfold matchTail
  have h0 : 60 - k = 0 := by omega
  rw [h0]
  rfl

theorem matchTail_step (s : DeliverySchedule) (fd : DateTime) (k : Nat) (hk : k < 60) :
    matchTail s fd k =
      if schedMatches s fd (dtAddDays fd (k : Int)) then k :: matchTail s fd (k + 1)
      else matchTail s fd (k + 1) := by
  unfold matchTail
  have h60 : 60 - k = (60 - (k + 1)) + 1 := by omega
  rw [h60, List.range'_succ]
  by_cases hM : schedMatches s fd (dtAddDays fd (k : Int))
  · rw [if_pos hM, List.filter_cons_of_pos (by simpa using hM)]
  · rw [if_neg hM, List.filter_cons_of_neg (by simpa using hM)]

theorem deliveryScan_single {s : DeliverySchedule} {fd : DateTime} {count : Nat}
    (hf0 : s.frequency ≠ 0) :
    ∀ (fuel k : Nat), k + fuel = 61 →
    ∀ acc : List (DeliverySchedule × DateTime),
    acc.length + (matchTail s fd k).length ≤ count →
    deliveryScan [s] fd count fuel (dtAddDays fd (k : Int)) acc =
      .ok (acc ++ (matchTail s fd k).map
        (fun (j : Nat) => (s, schedArrival s (dtAddDays fd (j : Int))))) := by
  intro fuel
  induction fuel with
  | zero =>
    intro k hk acc hlen
    rw [matchTail_stop s fd k (by omega)]
    simp [deliveryScan]
  | succ n ih =>
    intro k hk acc hlen
    have hcast : ((k : Int) + 1) = ((k + 1 : Nat) : Int) := by push_cast; ring
    by_cases hk60 : k < 60
    · rw [matchTail_step s fd k hk60] at hlen ⊢
      unfold deliveryScan
      by_cases hM : schedMatches s fd (dtAddDays fd (k : Int))
      · rw [if_pos hM] at hlen ⊢
        have hlt : acc.length < count := by
          simp only [List.length_cons] at hlen
          omega
        rw [if_pos ⟨hlt, by rw [diffDays_addDays_self]; exact_mod_cast hk60⟩]
        rw [scheduleMatchStep_single hf0, if_pos hM]
        dsimp only
        rw [dtAddDays_dtAddDays, hcast]
        rw [ih (k + 1) (by omega) (acc ++ [(s, schedArrival s (dtAddDays fd (k : Int)))])
          (by simp only [List.length_append, List.length_cons, List.length_nil] at hlen ⊢
              omega)]
        simp
      · rw [if_neg hM] at hlen ⊢
        by_cases hlt : acc.length < count
        · rw [if_pos ⟨hlt, by rw [diffDays_addDays_self]; exact_mod_cast hk60⟩]
          rw [scheduleMatchStep_single hf0, if_neg hM]
          dsimp only
          rw [dtAddDays_dtAddDays, hcast]
          exact ih (k + 1) (by omega) acc hlen
        · rw [if_neg (fun hc => hlt hc.1)]
          have hmt0 : (matchTail s fd (k + 1)).length = 0 := by omega
          rw [List.length_eq_zero.mp hmt0]
          simp
    · unfold deliveryScan
      rw [if_neg (by rintro ⟨h1, h2⟩; rw [diffDays_addDays_self] at h2; omega)]
      rw [matchTail_stop s fd k (by omega)]
      simp

/-- Claim C7: for a store whose (single) schedule has `frequency = 1`, and a
`count` large enough not to truncate the stream, `get_next_delivery_dates`
yields exactly one entry per occurrence of the schedule's weekday within the
60-day horizon that is on-or-after `start_date` and whose truck has not
already departed on the first day. -/
theorem C7_weekly_every_occurrence (sys : LogisticsSystem) (store_code : String)
    (s : DeliverySchedule) (from_date : DateTime) (count : Nat)
    (hs : sys.delivery_schedules store_code = some [s])
    (hf : s.frequency = 1)
    (hcount : (matchTail s from_date 0).length ≤ count) :
    sys.get_next_delivery_dates store_code from_date count =
      .ok (((List.range 60).filter (fun (k : Nat) =>
          decide (dtWeekday (dtAddDays from_date (k : Int)) = s.day_of_week_num ∧
            s.start_date ≤ dtAddDays from_date (k : Int) ∧
            ¬(dtDate (dtAddDays from_date (k : Int)) = dtDate from_date ∧
              s.departure_time < dtTime from_date)))).map
        (fun (k : Nat) => (s, schedArrival s (dtAddDays from_date (k : Int))))) := by
  have hfilter : ((List.range 60).filter (fun (k : Nat) =>
      decide (dtWeekday (dtAddDays from_date (k : Int)) = s.day_of_week_num ∧
        s.start_date ≤ dtAddDays from_date (k : Int) ∧
        ¬(dtDate (dtAddDays from_date (k : Int)) = dtDate from_date ∧
          s.departure_time < dtTime from_date)))) = matchTail s from_date 0 := by
    unfold matchTail
    rw [Nat.sub_zero, ← List.range_eq_range']
    refine List.filter_congr ?_
    intro k hk
    rw [decide_eq_decide]
    unfold schedMatches
    rw [hf]
    simp only [Int.fmod_one, true_and]
  rw [hfilter]
  unfold LogisticsSystem.get_next_delivery_dates
  rw [hs]
  dsimp only
  rw [if_neg (by simp)]
  have hf0 : s.frequency ≠ 0 := by rw [hf]; norm_num
  have hscan := @deliveryScan_single s from_date count hf0 61 0 rfl []
    (by simpa using hcount)
  rw [Nat.cast_zero, dtAddDays_zero, List.nil_append] at hscan
  rw [hscan]
  dsimp only
  congr 1
  unfold sortByArrival
  apply List.Sorted.insertionSort_eq
  have hpair : (matchTail s from_date 0).Pairwise (· < ·) := by
    unfold matchTail
    exact (List.pairwise_lt_range' 0 60).filter _
  rw [List.Sorted, List.pairwise_map]
  refine hpair.imp ?_
  intro j1 j2 hlt
  show schedArrival s (dtAddDays from_date (j1 : Int)) ≤
    schedArrival s (dtAddDays from_date (j2 : Int))
  rw [schedArrival_addDays, schedArrival_addDays]
  have hlt' : (j1 : Int) ≤ (j2 : Int) := by exact_mod_cast le_of_lt hlt
  linarith

theorem C7_weekly_every_occurrence_witness :
    mondaySys.get_next_delivery_dates "STORE001" 480 20 =
      .ok (((List.range 60).filter (fun (k : Nat) =>
          decide (dtWeekday (dtAddDays 480 (k : Int)) = demoSchedMon.day_of_week_num ∧
            demoSchedMon.start_date ≤ dtAddDays 480 (k : Int) ∧
            ¬(dtDate (dtAddDays 480 (k : Int)) = dtDate 480 ∧
              demoSchedMon.departure_time < dtTime 480)))).map
        (fun (k : Nat) => (demoSchedMon, schedArrival demoSchedMon (dtAddDays 480 (k : Int))))) :=
  C7_weekly_every_occurrence mondaySys "STORE001" demoSchedMon 480 20 rfl rfl (by decide)

theorem pickupAggregate_nodup {sys : LogisticsSystem} {code : String} {days : Nat} :
    ∀ {l : List (DeliverySchedule × DateTime)} {result seen out},
    pickupAggregate sys code days l result seen = .ok out →
    (result.map PickupEntry.date).Nodup →
    (∀ x ∈ result, x.date ∈ seen) →
    (out.map PickupEntry.date).Nodup := by
  intro l
  induction l with
  | nil =>
    intro result seen out h h1 h2
    simp only [pickupAggregate] at h
    injection h with h
    subst h
    exact h1
  | cons p rest ih =>
    intro result seen out h h1 h2
    obtain ⟨sched, d⟩ := p
    cases hp : sys.get_pickup_times code d with
    | error e =>
      cases e <;> simp only [pickupAggregate, hp] at h
      · cases h
      · cases h
      · exact ih h h1 h2
      · cases h
    | ok pr =>
      obtain ⟨st, et⟩ := pr
      simp only [pickupAggregate, hp] at h
      split at h
      · exact ih h h1 h2
      next hnotseen =>
        have hnotin : dtDate st ∉ result.map PickupEntry.date := by
          intro hmem
          obtain ⟨x, hx, hxd⟩ := List.mem_map.mp hmem
          exact hnotseen (hxd ▸ h2 x hx)
        have h1' : ((result ++
            [({ date := dtDate st, range_start := dtTime st, range_end := dtTime et } :
              PickupEntry)]).map PickupEntry.date).Nodup := by
          rw [List.map_append]
          simp [List.nodup_append, h1, hnotin]
        split at h
        · injection h with h
          subst h
          exact h1'
        · refine ih h h1' ?_
          intro x hx
          rcases List.mem_append.mp hx with hx | hx
          · exact List.mem_cons_of_mem _ (h2 x hx)
          · simp only [List.mem_singleton] at hx
            subst hx
            exact List.mem_cons_self _ _

/-- Claim C9: the list of pickup windows returned by `get_delivery_dates`
never contains two entries with the same calendar date. -/
theorem C9_dedup (sys : LogisticsSystem) (store_code : String) (order_date : DateTime)
    (days_to_show : Nat) (entries : List PickupEntry)
    (h : sys.get_delivery_dates store_code order_date days_to_show = .ok (.dates entries)) :
    (entries.map PickupEntry.date).Nodup := by
  simp only [LogisticsSystem.get_delivery_dates] at h
  split at h
  · injection h with h; cases h
  · cases hnext : sys.get_next_delivery_dates store_code
        (dtAddMinutes order_date sys.order_processing_time) (days_to_show * 2) with
    | error e' =>
      rw [hnext] at h
      cases e' <;> dsimp only at h
      · cases h
      · injection h with h; cases h
      · cases h
      · cases h
    | ok dd =>
      rw [hnext] at h
      dsimp only at h
      cases hagg : pickupAggregate sys store_code days_to_show dd [] [] with
      | error e' => rw [hagg] at h; cases h
      | ok result =>
        rw [hagg] at h
        dsimp only at h
        split at h
        · injection h with h; cases h
        · injection h with h
          injection h with h
          subst h
          exact pickupAggregate_nodup hagg (by simp) (by simp)

theorem C9_dedup_witness :
    demoSys.get_delivery_dates "STORE001" 420 5 = .ok (.dates
      [⟨2, 660, 1200⟩, ⟨4, 720, 1200⟩, ⟨9, 660, 1200⟩, ⟨11, 720, 1200⟩, ⟨16, 660, 1200⟩]) ∧
    (([⟨2, 660, 1200⟩, ⟨4, 720, 1200⟩, ⟨9, 660, 1200⟩, ⟨11, 720, 1200⟩,
        ⟨16, 660, 1200⟩] : List PickupEntry).map PickupEntry.date).Nodup :=
  ⟨by decide, C9_dedup demoSys "STORE001" 420 5 _ (by decide)⟩
